import Mathlib

/-!
Shallow embedding of the resource-sharing ledger (`hyperledger/ledger.py`).

Modelling conventions:
* Credit amounts are rationals (`ℚ`); the source uses Python floats, the spec
  asks for "non-negative rational; fixed point or double".  Literals such as
  `0.001` denote the exact rational.
* Timestamps are naturals passed explicitly (`now`) where the source reads the
  wall clock.
* SHA-256 is modelled as an ideal collision-free hash: a transaction's
  fingerprint is its own field content, and a block hash is a free term
  (`HashVal.node`) built from exactly the data the source feeds into the hash
  string (index, timestamp, previous hash, nonce, transaction fingerprints).
  Distinct inputs give distinct hashes by constructor injectivity.
* The proof-of-work target (leading hex zeros of the digest) is modelled by a
  nonce-derived residue condition `meetsTarget`; a freshly constructed block
  (nonce 0) already meets it, so the mining loop terminates immediately.  No
  claim under study concerns the difficulty of the nonce search itself, only
  which re-validation checks `is_chain_valid` performs.
* Python `dict` fields keyed by integers are association lists in insertion
  order; `None`-or-string parameters are `Option String`, with Python
  truthiness (`None` and `""` are falsy) made explicit.
-/

/-- Resource descriptor, mirroring the `SharedFile` dataclass. -/
structure SharedFile where
  id : ℕ
  name : String
  size_gb : ℚ
  uploader : String
  seeds : ℤ
  peers : ℤ
  description : String
  owner_address : String
  file_hash : String
  category : String
  upload_time : ℕ
  is_active : Bool
  storage_path : String
deriving DecidableEq, Repr

/-- Credit-movement record, mirroring the `Transaction` class.  `resource_data`
is `none` for the empty payload `{}` and `some f` for `file.to_dict()`. -/
structure Transaction where
  sender : String
  receiver : String
  amount : ℚ
  transaction_type : String
  resource_data : Option SharedFile
  timestamp : ℕ
deriving DecidableEq, Repr

/-- Ideal collision-free transaction hash: the fingerprint is the content
itself (the source hashes the canonical serialization of these fields). -/
def Transaction.fingerprint (t : Transaction) : Transaction := t

/-- Block-hash values.  `zero` is the literal string `"0"` used as the genesis
block's previous hash; `node` is the ideal SHA-256 of the data the source
concatenates in `Block.calculate_hash`. -/
inductive HashVal where
  | zero : HashVal
  | node : ℕ → ℕ → HashVal → ℕ → List Transaction → HashVal
deriving DecidableEq, Repr

/-- Block record, mirroring the `Block` class. -/
structure Block where
  index : ℕ
  timestamp : ℕ
  transactions : List Transaction
  previous_hash : HashVal
  nonce : ℕ
  difficulty : ℕ
  hash : HashVal
deriving DecidableEq, Repr

/-- Recompute a block's hash from its fields, mirroring
`Block.calculate_hash` (index, timestamp, previous hash, nonce, transaction
fingerprints). -/
def Block.calculate_hash (b : Block) : HashVal :=
  .node b.index b.timestamp b.previous_hash b.nonce b.transactions

/-- Nonce component of a hash value, used by the modelled difficulty target. -/
def hashNonce : HashVal → ℕ
  | .zero => 0
  | .node _ _ _ n _ => n

/-- Modelled proof-of-work target, standing for the source's check that the
hex digest starts with `difficulty` zeros. -/
def meetsTarget (h : HashVal) (d : ℕ) : Bool :=
  hashNonce h % 16 ^ d == 0

/-- Fuelled mining loop, mirroring `Block.mine_block`: while the stored hash
misses the target, bump the nonce and recompute the hash. -/
def mineLoop : ℕ → Block → Block
  | 0, b => b
  | fuel + 1, b =>
    if meetsTarget b.hash b.difficulty then b
    else
      let b' : Block := { b with nonce := b.nonce + 1 }
      mineLoop fuel { b' with hash := b'.calculate_hash }

/-- Mine a block; the fuel bound covers one full nonce period of the target. -/
def Block.mine_block (b : Block) : Block :=
  mineLoop (16 ^ b.difficulty + 1) b

/-- Block constructor, mirroring `Block.__init__`: nonce starts at 0 and the
initial hash is computed from the fields. -/
def mkBlock (index : ℕ) (timestamp : ℕ) (transactions : List Transaction)
    (previous_hash : HashVal) (difficulty : ℕ) : Block :=
  let b : Block :=
    { index := index, timestamp := timestamp, transactions := transactions,
      previous_hash := previous_hash, nonce := 0, difficulty := difficulty,
      hash := .zero }
  { b with hash := b.calculate_hash }

/-- Chain state, mirroring the `Blockchain` class fields. -/
structure Blockchain where
  chain : List Block
  pending_transactions : List Transaction
  difficulty : ℕ
  mining_reward : ℚ
  reward_halving_interval : ℕ
deriving DecidableEq, Repr

/-- Genesis block, mirroring `Blockchain.create_genesis_block`. -/
def create_genesis_block (now : ℕ) : Block :=
  let genesis_transaction : Transaction :=
    { sender := "0", receiver := "system", amount := 0,
      transaction_type := "genesis", resource_data := none, timestamp := now }
  (mkBlock 0 now [genesis_transaction] .zero 2).mine_block

/-- Fresh chain, mirroring `Blockchain.__init__`. -/
def Blockchain.init (now : ℕ) : Blockchain :=
  { chain := [create_genesis_block now], pending_transactions := [],
    difficulty := 2, mining_reward := 50, reward_halving_interval := 210000 }

/-- Tip of the chain, mirroring `get_latest_block` (`chain[-1]`; the chain is
never empty in reachable states). -/
def Blockchain.get_latest_block (bc : Blockchain) : Block :=
  bc.chain.getLastD (create_genesis_block 0)

/-- Net effect of one transaction on one address during balance replay:
receipts add, sends subtract unless the sender is the system identity `"0"`. -/
def tx_delta (address : String) (t : Transaction) : ℚ :=
  (if t.receiver = address then t.amount else 0) -
    (if t.sender = address ∧ t.sender ≠ "0" then t.amount else 0)

/-- Balance replay over a list of blocks, mirroring the loops of
`Blockchain.get_balance`. -/
def get_balance_chain (chain : List Block) (address : String) : ℚ :=
  ((chain.flatMap Block.transactions).map (tx_delta address)).sum

/-- Balance of an address over the confirmed chain only. -/
def Blockchain.get_balance (bc : Blockchain) (address : String) : ℚ :=
  get_balance_chain bc.chain address

/-- Pool admission, mirroring `Blockchain.add_transaction`: system
transactions (sender `"0"`) are admitted unconditionally; otherwise the sender
needs a confirmed balance of at least the amount.  Failure is reported by the
boolean, never by an exception. -/
def Blockchain.add_transaction (bc : Blockchain) (t : Transaction) :
    Blockchain × Bool :=
  if t.sender = "0" then
    ({ bc with pending_transactions := bc.pending_transactions ++ [t] }, true)
  else if t.amount ≤ bc.get_balance t.sender then
    ({ bc with pending_transactions := bc.pending_transactions ++ [t] }, true)
  else
    (bc, false)

/-- Base mining reward with halving, mirroring `calculate_current_reward`. -/
def Blockchain.calculate_current_reward (bc : Blockchain) : ℚ :=
  bc.mining_reward / 2 ^ (bc.chain.length / bc.reward_halving_interval)

/-- Per-transaction miner fee aggregated at mining time: 0.1% of the amount
for `resource_download` and `transfer` transactions, zero otherwise. -/
def tx_fee (t : Transaction) : ℚ :=
  if t.transaction_type = "resource_download" ∨ t.transaction_type = "transfer"
  then t.amount * 0.001 else 0

/-- Mining, mirroring `mine_pending_transactions`: on an empty pool return
nothing; otherwise append a `mining_reward` transaction (base reward plus
aggregated fees) after the pool snapshot, mine the block at the tip, append it
and clear the pool. -/
def Blockchain.mine_pending_transactions (bc : Blockchain)
    (mining_reward_address : String) (now : ℕ) : Blockchain × Option Block :=
  if bc.pending_transactions = [] then (bc, none)
  else
    let total_fees := (bc.pending_transactions.map tx_fee).sum
    let current_reward := bc.calculate_current_reward + total_fees
    let reward_transaction : Transaction :=
      { sender := "0", receiver := mining_reward_address,
        amount := current_reward, transaction_type := "mining_reward",
        resource_data := none, timestamp := now }
    let transactions_to_mine := bc.pending_transactions ++ [reward_transaction]
    let block :=
      (mkBlock bc.chain.length now transactions_to_mine
        bc.get_latest_block.hash bc.difficulty).mine_block
    ({ bc with chain := bc.chain ++ [block], pending_transactions := [] },
      some block)

/-- Validity of one adjacent pair of blocks: the later block's stored hash
recomputes, it links to the earlier block's hash, and it meets its stored
difficulty target. -/
def validLink (prev cur : Block) : Bool :=
  (cur.hash == cur.calculate_hash) && (cur.previous_hash == prev.hash) &&
    meetsTarget cur.hash cur.difficulty

/-- Chain validation, mirroring `Blockchain.is_chain_valid`: check every
adjacent pair (the loop runs over indices 1 to length − 1). -/
def chainValid (chain : List Block) : Bool :=
  (chain.zip chain.tail).all fun p => validLink p.1 p.2

/-- Method form of chain validation. -/
def Blockchain.is_chain_valid (bc : Blockchain) : Bool :=
  chainValid bc.chain

/-- Registry state, mirroring `ResourceManager` (`files` is the id-keyed dict
in insertion order, `next_file_id` the id counter). -/
structure ResourceManager where
  files : List (ℕ × SharedFile)
  next_file_id : ℕ
deriving DecidableEq, Repr

/-- The three demo resources inserted by `_initialize_sample_files`
(ids 1, 2, 3; owner identity is the empty string). -/
def sample_files (now : ℕ) : List SharedFile :=
  [ { id := 1, name := "The Art of Seeding.pdf", size_gb := 0.0124,
      uploader := "seedMaster", seeds := 42, peers := 5,
      description := "Illustrated guide to earning wealth rewards efficiently.",
      owner_address := "", file_hash := "", category := "document",
      upload_time := now, is_active := true, storage_path := "" },
    { id := 2, name := "Nexus OST.mp3", size_gb := 0.0063,
      uploader := "djHyper", seeds := 18, peers := 12,
      description := "Synthwave soundtrack to keep your node online.",
      owner_address := "", file_hash := "", category := "audio",
      upload_time := now, is_active := true, storage_path := "" },
    { id := 3, name := "ClientSetup.zip", size_gb := 0.0481,
      uploader := "builderBee", seeds := 33, peers := 4,
      description := "Automation scripts to bootstrap a new seeding rig.",
      owner_address := "", file_hash := "", category := "software",
      upload_time := now, is_active := true, storage_path := "" } ]

/-- Fresh registry, mirroring `ResourceManager.__init__`: every registry is
seeded with the three sample files and the id counter stands at 4. -/
def ResourceManager.init (now : ℕ) : ResourceManager :=
  { files := (sample_files now).map (fun f => (f.id, f)), next_file_id := 4 }

/-- Input fields for `add_file` (a `SharedFile` minus the assigned id; an
absent `upload_time` is filled with the creation instant, as in
`__post_init__`). -/
structure FileData where
  name : String
  size_gb : ℚ
  uploader : String
  seeds : ℤ
  peers : ℤ
  description : String
  owner_address : String
  file_hash : String
  category : String
  upload_time : Option ℕ
  is_active : Bool
  storage_path : String
deriving DecidableEq, Repr

/-- Build a `SharedFile` from input fields and a fresh id. -/
def mkSharedFile (id : ℕ) (fd : FileData) (now : ℕ) : SharedFile :=
  { id := id, name := fd.name, size_gb := fd.size_gb, uploader := fd.uploader,
    seeds := fd.seeds, peers := fd.peers, description := fd.description,
    owner_address := fd.owner_address, file_hash := fd.file_hash,
    category := fd.category, upload_time := fd.upload_time.getD now,
    is_active := fd.is_active, storage_path := fd.storage_path }

/-- Insertion, mirroring `ResourceManager.add_file`: assign the next id and
insert.  (The source's `except` branch only fires on malformed dynamic
dictionaries, which the typed model excludes.) -/
def ResourceManager.add_file (rm : ResourceManager) (fd : FileData)
    (now : ℕ) : ResourceManager × Option SharedFile :=
  let file_id := rm.next_file_id
  let f := mkSharedFile file_id fd now
  ({ files := rm.files ++ [(file_id, f)], next_file_id := file_id + 1 },
    some f)

/-- Lookup, mirroring `ResourceManager.get_file`. -/
def ResourceManager.get_file (rm : ResourceManager) (file_id : ℕ) :
    Option SharedFile :=
  rm.files.lookup file_id

/-- Ownership rejection test used by `remove_file` and `update_file`:
the Python guard `owner_address and file.owner_address != owner_address`
rejects only when the requester argument is truthy (not `None`, not `""`)
and differs from the record's owner. -/
def ownerReject (fileOwner : String) : Option String → Bool
  | none => false
  | some s => !(s == "") && !(fileOwner == s)

/-- Removal, mirroring `ResourceManager.remove_file`. -/
def ResourceManager.remove_file (rm : ResourceManager) (file_id : ℕ)
    (owner_address : Option String) : ResourceManager × Bool :=
  match rm.files.lookup file_id with
  | none => (rm, false)
  | some f =>
    if ownerReject f.owner_address owner_address then (rm, false)
    else
      ({ rm with files := rm.files.filter (fun p => !(p.1 == file_id)) },
        true)

/-- One field assignment of an `update_file` patch dictionary. -/
inductive FieldPatch where
  | set_id (v : ℕ)
  | set_name (v : String)
  | set_size_gb (v : ℚ)
  | set_uploader (v : String)
  | set_seeds (v : ℤ)
  | set_peers (v : ℤ)
  | set_description (v : String)
  | set_owner_address (v : String)
  | set_file_hash (v : String)
  | set_category (v : String)
  | set_upload_time (v : ℕ)
  | set_is_active (v : Bool)
  | set_storage_path (v : String)
deriving DecidableEq, Repr

/-- Raw field assignment (Python `setattr`). -/
def applyField (f : SharedFile) : FieldPatch → SharedFile
  | .set_id v => { f with id := v }
  | .set_name v => { f with name := v }
  | .set_size_gb v => { f with size_gb := v }
  | .set_uploader v => { f with uploader := v }
  | .set_seeds v => { f with seeds := v }
  | .set_peers v => { f with peers := v }
  | .set_description v => { f with description := v }
  | .set_owner_address v => { f with owner_address := v }
  | .set_file_hash v => { f with file_hash := v }
  | .set_category v => { f with category := v }
  | .set_upload_time v => { f with upload_time := v }
  | .set_is_active v => { f with is_active := v }
  | .set_storage_path v => { f with storage_path := v }

/-- Keys that `update_file` refuses to touch (`id` and `owner_address`). -/
def patchKeyBlocked : FieldPatch → Bool
  | .set_id _ => true
  | .set_owner_address _ => true
  | _ => false

/-- Apply a patch dictionary the way `update_file` does: every entry except
the blocked keys is assigned in order. -/
def applyPatch (f : SharedFile) (update_data : List FieldPatch) : SharedFile :=
  update_data.foldl (fun g p => if patchKeyBlocked p then g else applyField g p) f

/-- Replace the value of the first entry with the given key, mirroring a
Python dict entry update (keys are unique in a dict). -/
def setFirst {α β : Type} [BEq α] (l : List (α × β)) (k : α) (v : β) :
    List (α × β) :=
  match l with
  | [] => []
  | p :: rest => if p.1 == k then (p.1, v) :: rest else p :: setFirst rest k v

/-- In-place update of an id's record in the association list. -/
def ResourceManager.setFile (rm : ResourceManager) (file_id : ℕ)
    (f : SharedFile) : ResourceManager :=
  { rm with files := setFirst rm.files file_id f }

/-- Update, mirroring `ResourceManager.update_file`. -/
def ResourceManager.update_file (rm : ResourceManager) (file_id : ℕ)
    (update_data : List FieldPatch) (owner_address : Option String) :
    ResourceManager × Option SharedFile :=
  match rm.files.lookup file_id with
  | none => (rm, none)
  | some f =>
    if ownerReject f.owner_address owner_address then (rm, none)
    else
      let f' := applyPatch f update_data
      (rm.setFile file_id f', some f')

/-- Seed/peer counter update, mirroring `update_seeds_peers` (clamped at 0). -/
def ResourceManager.update_seeds_peers (rm : ResourceManager) (file_id : ℕ)
    (seeds_delta peers_delta : ℤ) : ResourceManager × Bool :=
  match rm.files.lookup file_id with
  | none => (rm, false)
  | some f =>
    let f' : SharedFile :=
      { f with seeds := max 0 (f.seeds + seeds_delta),
               peers := max 0 (f.peers + peers_delta) }
    (rm.setFile file_id f', true)

/-- Per-user state (the shared `Blockchain` is threaded separately since the
source's `User` holds a reference to the single chain). -/
structure UserState where
  username : String
  address : String
  resource_manager : ResourceManager
deriving DecidableEq, Repr

/-- Initial endowment of every new user (`self.initial_credit = 10000.0`). -/
def initial_credit : ℚ := 10000

/-- User construction, mirroring `User.__init__`: a fresh registry (seeded
with the sample files) and one `initial_credit` transaction enqueued from the
system identity (which always succeeds).  The address is the externally
minted 16-hex identity. -/
def mkUser (bc : Blockchain) (username address : String) (now : ℕ) :
    UserState × Blockchain :=
  let u : UserState :=
    { username := username, address := address,
      resource_manager := ResourceManager.init now }
  let initial_transaction : Transaction :=
    { sender := "0", receiver := address, amount := initial_credit,
      transaction_type := "initial_credit", resource_data := none,
      timestamp := now }
  (u, (bc.add_transaction initial_transaction).1)

/-- Resource declaration, mirroring `User.declare_resources`:
stamp the caller as owner, insert into the caller's registry, enqueue a
`resource_declaration` credit of `size_gb * 1000` from the system identity,
and roll the insertion back if the enqueue fails. -/
def User.declare_resources (u : UserState) (bc : Blockchain) (fd : FileData)
    (now : ℕ) : (UserState × Blockchain) × Bool :=
  let fd' := { fd with owner_address := u.address }
  match u.resource_manager.add_file fd' now with
  | (rm', none) => (({ u with resource_manager := rm' }, bc), false)
  | (rm', some f) =>
    let credit_earned := f.size_gb * 1000
    let resource_transaction : Transaction :=
      { sender := "0", receiver := u.address, amount := credit_earned,
        transaction_type := "resource_declaration", resource_data := some f,
        timestamp := now }
    let r := bc.add_transaction resource_transaction
    if r.2 then (({ u with resource_manager := rm' }, r.1), true)
    else
      let rm'' := (rm'.remove_file f.id (some u.address)).1
      (({ u with resource_manager := rm'' }, r.1), false)

/-- Download, mirroring `User.download_resource` (`u` is the resource owner's
user object, on whose registry the lookup happens): the file must exist and be
active, its recorded owner must differ from the downloader's identity, the
downloader's confirmed balance must cover cost plus 0.1% miner fee, and on a
successful enqueue the seed count is bumped. -/
def User.download_resource (u : UserState) (bc : Blockchain) (file_id : ℕ)
    (downloader : UserState) (now : ℕ) : (UserState × Blockchain) × Bool :=
  match u.resource_manager.get_file file_id with
  | none => ((u, bc), false)
  | some f =>
    if !f.is_active then ((u, bc), false)
    else if f.owner_address == downloader.address then ((u, bc), false)
    else
      let download_cost := f.size_gb * 1000
      let miner_fee := download_cost * 0.001
      let total_cost := download_cost + miner_fee
      let downloader_balance := bc.get_balance downloader.address
      if downloader_balance < total_cost then ((u, bc), false)
      else
        let download_transaction : Transaction :=
          { sender := downloader.address, receiver := f.owner_address,
            amount := download_cost, transaction_type := "resource_download",
            resource_data := some f, timestamp := now }
        let r := bc.add_transaction download_transaction
        if r.2 then
          let rm' := (u.resource_manager.update_seeds_peers file_id 1 0).1
          (({ u with resource_manager := rm' }, r.1), true)
        else ((u, r.1), false)

/-- Facade state, mirroring `ResourceSharingSystem`. -/
structure SysState where
  blockchain : Blockchain
  users : List (String × UserState)
  global_resource_manager : ResourceManager
deriving DecidableEq, Repr

/-- Fresh system, mirroring `ResourceSharingSystem.__init__`. -/
def SysState.init (now : ℕ) : SysState :=
  { blockchain := Blockchain.init now, users := [],
    global_resource_manager := ResourceManager.init now }

/-- Handle lookup, mirroring `get_user`. -/
def SysState.get_user (sys : SysState) (username : String) : Option UserState :=
  sys.users.lookup username

/-- Replace a handle's user entry after a mutation of that user's state. -/
def SysState.set_user (sys : SysState) (username : String) (u : UserState) :
    SysState :=
  { sys with users := setFirst sys.users username u }

/-- Registration, mirroring `register_user`: a duplicate handle raises
`ValueError`, modelled as `none`; otherwise the new user (with externally
minted identity `address`) is stored and its endowment transaction enqueued. -/
def SysState.register_user (sys : SysState) (username address : String)
    (now : ℕ) : Option SysState :=
  if (sys.users.lookup username).isSome then none
  else
    let p := mkUser sys.blockchain username address now
    some { sys with blockchain := p.2,
                    users := sys.users ++ [(username, p.1)] }

/-- Facade publish, mirroring `declare_user_resources`. -/
def SysState.declare_user_resources (sys : SysState) (username : String)
    (fd : FileData) (now : ℕ) : SysState × Bool :=
  match sys.get_user username with
  | none => (sys, false)
  | some u =>
    let r := User.declare_resources u sys.blockchain fd now
    (({ sys with blockchain := r.1.2 }).set_user username r.1.1, r.2)

/-- Facade download, mirroring `ResourceSharingSystem.download_resource`:
both handles must resolve, then the owner-side `download_resource` runs. -/
def SysState.download_resource (sys : SysState)
    (downloader_username file_owner_username : String) (file_id : ℕ)
    (now : ℕ) : SysState × Bool :=
  match sys.get_user downloader_username, sys.get_user file_owner_username with
  | some dlr, some owner =>
    let r := User.download_resource owner sys.blockchain file_id dlr now
    (({ sys with blockchain := r.1.2 }).set_user file_owner_username r.1.1,
      r.2)
  | _, _ => (sys, false)

/-- Facade mining, mirroring `ResourceSharingSystem.mine_block`. -/
def SysState.mine_block (sys : SysState) (miner_username : String)
    (now : ℕ) : SysState × Option Block :=
  match sys.get_user miner_username with
  | none => (sys, none)
  | some miner =>
    let r := sys.blockchain.mine_pending_transactions miner.address now
    ({ sys with blockchain := r.1 }, r.2)

/-- Facade balance, mirroring `get_user_balance`: an unknown handle yields the
number `0.0`. -/
def SysState.get_user_balance (sys : SysState) (username : String) : ℚ :=
  match sys.get_user username with
  | none => 0
  | some u => sys.blockchain.get_balance u.address

/-! Helper definitions and lemmas shared by the claim theorems. -/

/-- Reward transaction built by `mine_pending_transactions` for a given chain
state, miner identity and instant. -/
def reward_tx (bc : Blockchain) (m : String) (now : ℕ) : Transaction :=
  { sender := "0", receiver := m,
    amount := bc.calculate_current_reward + (bc.pending_transactions.map tx_fee).sum,
    transaction_type := "mining_reward", resource_data := none,
    timestamp := now }

/-- Block produced by `mine_pending_transactions` on a non-empty pool. -/
def mined_block (bc : Blockchain) (m : String) (now : ℕ) : Block :=
  mkBlock bc.chain.length now (bc.pending_transactions ++ [reward_tx bc m now])
    bc.get_latest_block.hash bc.difficulty

/-- Total amount sent by an address across a transaction list. -/
def pending_debit (pool : List Transaction) (a : String) : ℚ :=
  ((pool.filter (fun t => t.sender = a)).map Transaction.amount).sum

/-- Total amount received by an address across a transaction list. -/
def pool_receipts (pool : List Transaction) (a : String) : ℚ :=
  ((pool.filter (fun t => t.receiver = a)).map Transaction.amount).sum

theorem mineLoop_of_target (fuel : ℕ) (b : Block)
    (h : meetsTarget b.hash b.difficulty = true) : mineLoop fuel b = b := by
  cases fuel with
  | zero => rfl
  | succ n => simp [mineLoop, h]

@[simp] theorem mkBlock_hash (i t : ℕ) (txs : List Transaction) (p : HashVal)
    (d : ℕ) : (mkBlock i t txs p d).hash = .node i t p 0 txs := rfl

@[simp] theorem mkBlock_transactions (i t : ℕ) (txs : List Transaction)
    (p : HashVal) (d : ℕ) : (mkBlock i t txs p d).transactions = txs := rfl

@[simp] theorem mkBlock_index (i t : ℕ) (txs : List Transaction) (p : HashVal)
    (d : ℕ) : (mkBlock i t txs p d).index = i := rfl

@[simp] theorem mkBlock_timestamp (i t : ℕ) (txs : List Transaction)
    (p : HashVal) (d : ℕ) : (mkBlock i t txs p d).timestamp = t := rfl

@[simp] theorem mkBlock_previous_hash (i t : ℕ) (txs : List Transaction)
    (p : HashVal) (d : ℕ) : (mkBlock i t txs p d).previous_hash = p := rfl

@[simp] theorem mkBlock_nonce (i t : ℕ) (txs : List Transaction) (p : HashVal)
    (d : ℕ) : (mkBlock i t txs p d).nonce = 0 := rfl

@[simp] theorem mkBlock_difficulty (i t : ℕ) (txs : List Transaction)
    (p : HashVal) (d : ℕ) : (mkBlock i t txs p d).difficulty = d := rfl

/-- In the idealized target model a freshly constructed block already meets
its target, so the mining loop stops at nonce 0. -/
@[simp] theorem mine_block_mkBlock (i t : ℕ) (txs : List Transaction)
    (p : HashVal) (d : ℕ) :
    (mkBlock i t txs p d).mine_block = mkBlock i t txs p d := by
  apply mineLoop_of_target
  simp [meetsTarget, hashNonce]

/-- Pool admission never touches the confirmed chain. -/
theorem add_transaction_chain (bc : Blockchain) (t : Transaction) :
    (bc.add_transaction t).1.chain = bc.chain := by
  unfold Blockchain.add_transaction
  split_ifs <;> rfl

/-- Unfolding of mining on a non-empty pool. -/
theorem mine_pending_eq (bc : Blockchain) (m : String) (now : ℕ)
    (hne : bc.pending_transactions ≠ []) :
    bc.mine_pending_transactions m now =
      ({ bc with chain := bc.chain ++ [mined_block bc m now],
                 pending_transactions := [] }, some (mined_block bc m now)) := by
  unfold Blockchain.mine_pending_transactions
  rw [if_neg hne]
  simp only [mined_block, reward_tx, mine_block_mkBlock]

/-- Balance replay is additive over appending one block. -/
theorem get_balance_chain_append (c : List Block) (b : Block) (a : String) :
    get_balance_chain (c ++ [b]) a =
      get_balance_chain c a + ((b.transactions.map (tx_delta a)).sum) := by
  simp [get_balance_chain]

/-- Replay of a transaction list decomposes into receipts minus debits for a
non-system address. -/
theorem sum_tx_delta (l : List Transaction) (a : String) (ha : a ≠ "0") :
    (l.map (tx_delta a)).sum = pool_receipts l a - pending_debit l a := by
  induction l with
  | nil => simp [pool_receipts, pending_debit]
  | cons t l ih =>
    have hs : (t.sender = a ∧ t.sender ≠ "0") ↔ t.sender = a := by
      constructor
      · exact fun h => h.1
      · intro h
        exact ⟨h, h ▸ ha⟩
    simp only [List.map_cons, List.sum_cons, ih, pool_receipts, pending_debit,
      List.filter_cons, tx_delta, hs]
    by_cases h1 : t.receiver = a <;> by_cases h2 : t.sender = a <;>
      simp [h1, h2] <;> ring

/-- One transaction's replay effect is bounded below by minus its debit. -/
theorem tx_delta_lower (t : Transaction) (a : String) (h : 0 ≤ t.amount) :
    -(if t.sender = a then t.amount else 0) ≤ tx_delta a t := by
  unfold tx_delta
  split_ifs with h1 h2 h2 <;> simp_all <;> linarith [h2 h1.1]

theorem tx_fee_nonneg (t : Transaction) (h : 0 ≤ t.amount) : 0 ≤ tx_fee t := by
  unfold tx_fee
  split_ifs <;> norm_num [h]

theorem fees_nonneg (l : List Transaction) (h : ∀ t ∈ l, 0 ≤ t.amount) :
    0 ≤ (l.map tx_fee).sum := by
  induction l with
  | nil => simp
  | cons t l ih =>
    simp only [List.map_cons, List.sum_cons]
    have h1 := tx_fee_nonneg t (h t (by simp))
    have h2 := ih (fun s hs => h s (by simp [hs]))
    linarith

theorem current_reward_nonneg (bc : Blockchain) (h : 0 ≤ bc.mining_reward) :
    0 ≤ bc.calculate_current_reward := by
  unfold Blockchain.calculate_current_reward
  positivity

theorem pending_debit_nonneg (l : List Transaction) (a : String)
    (h : ∀ t ∈ l, 0 ≤ t.amount) : 0 ≤ pending_debit l a := by
  unfold pending_debit
  induction l with
  | nil => simp
  | cons t l ih =>
    simp only [List.filter_cons]
    have h1 := h t (by simp)
    have h2 := ih (fun s hs => h s (by simp [hs]))
    split_ifs
    · simp only [List.map_cons, List.sum_cons]
      linarith
    · linarith

/-- Sum of replay effects is bounded below by minus the total debit. -/
theorem sum_tx_delta_lower (l : List Transaction) (a : String)
    (h : ∀ t ∈ l, 0 ≤ t.amount) :
    -pending_debit l a ≤ (l.map (tx_delta a)).sum := by
  induction l with
  | nil => simp [pending_debit]
  | cons t l ih =>
    have h1 := tx_delta_lower t a (h t (by simp))
    have h2 := ih (fun s hs => h s (by simp [hs]))
    simp only [pending_debit, List.filter_cons, List.map_cons, List.sum_cons]
    split_ifs with hs <;> simp_all [pending_debit] <;> linarith

/-- Lookup after an in-place replacement of a present key. -/
theorem lookup_setFirst_self {α β : Type} [BEq α] [LawfulBEq α]
    (l : List (α × β)) (k : α) (v : β) (h : (l.lookup k).isSome) :
    ((setFirst l k v).lookup k) = some v := by
  induction l with
  | nil => simp [List.lookup] at h
  | cons p l ih =>
    obtain ⟨pk, pv⟩ := p
    by_cases hk : pk = k
    · subst hk
      rw [setFirst, if_pos (by simp)]
      simp [List.lookup]
    · have h1 : (k == pk) = false := beq_false_of_ne (Ne.symm hk)
      have h2 : (pk == k) = false := beq_false_of_ne hk
      simp only [List.lookup, h1] at h
      rw [setFirst, if_neg (by simp [h2])]
      simp [List.lookup, h1, ih h]

/-- Replacing an entry by the value it already holds changes nothing. -/
theorem setFirst_eq_of_lookup {α β : Type} [BEq α] [LawfulBEq α]
    (l : List (α × β)) (k : α) (v : β) (h : l.lookup k = some v) :
    setFirst l k v = l := by
  induction l with
  | nil => rfl
  | cons p l ih =>
    obtain ⟨pk, pv⟩ := p
    by_cases hk : pk = k
    · subst hk
      rw [setFirst, if_pos (by simp)]
      simp only [List.lookup, beq_self_eq_true] at h
      simp at h
      rw [h]
    · have h1 : (k == pk) = false := beq_false_of_ne (Ne.symm hk)
      have h2 : (pk == k) = false := beq_false_of_ne hk
      simp only [List.lookup, h1] at h
      rw [setFirst, if_neg (by simp [h2]), ih h]

/-! Concrete scenario states used by counterexamples and witnesses. -/

/-- System credit of 100 to identity `"A"`. -/
def tx_credit_A : Transaction :=
  { sender := "0", receiver := "A", amount := 100,
    transaction_type := "initial_credit", resource_data := none,
    timestamp := 1 }

/-- Transfer of the full balance of `"A"` to `"B"`. -/
def tx_spend_A : Transaction :=
  { sender := "A", receiver := "B", amount := 100,
    transaction_type := "transfer", resource_data := none, timestamp := 3 }

/-- Chain with the credit to `"A"` pending. -/
def bc_A1 : Blockchain := ((Blockchain.init 0).add_transaction tx_credit_A).1

/-- Chain where `"A"` has a confirmed balance of 100. -/
def bc_A : Blockchain := (bc_A1.mine_pending_transactions "M" 2).1

/-- Chain after admitting the same full-balance transfer twice. -/
def bc_A2 : Blockchain :=
  ((bc_A.add_transaction tx_spend_A).1.add_transaction tx_spend_A).1

/-- Chain after mining the double spend. -/
def bc_A3 : Blockchain := (bc_A2.mine_pending_transactions "M" 4).1

theorem bal_bc_A : bc_A.get_balance "A" = 100 := by
  simp [bc_A, bc_A1, tx_credit_A, Blockchain.init, Blockchain.add_transaction,
    Blockchain.mine_pending_transactions, Blockchain.get_balance,
    get_balance_chain, Blockchain.calculate_current_reward,
    Blockchain.get_latest_block, tx_fee, tx_delta, create_genesis_block,
    List.getLastD]

theorem bal_bc_A3 : bc_A3.get_balance "A" = -100 := by
  simp [bc_A3, bc_A2, bc_A, bc_A1, tx_credit_A, tx_spend_A, Blockchain.init,
    Blockchain.add_transaction, Blockchain.mine_pending_transactions,
    Blockchain.get_balance, get_balance_chain,
    Blockchain.calculate_current_reward, Blockchain.get_latest_block, tx_fee,
    tx_delta, create_genesis_block, List.getLastD]

/-- C5: `add_transaction(tx)` admits unconditionally when `tx.sender = "0"`;
otherwise it admits iff the confirmed balance of the sender is at least the
amount; it reports failure by returning false (its return type carries no
exception), and a failed admission leaves the pool and the chain unchanged. -/
theorem c5_add_transaction_contract (bc : Blockchain) (t : Transaction) :
    (t.sender = "0" →
      bc.add_transaction t =
        ({ bc with pending_transactions := bc.pending_transactions ++ [t] },
          true)) ∧
    (t.sender ≠ "0" →
      ((bc.add_transaction t).2 = true ↔ t.amount ≤ bc.get_balance t.sender)) ∧
    (bc.add_transaction t).1.chain = bc.chain ∧
    ((bc.add_transaction t).2 = true →
      (bc.add_transaction t).1.pending_transactions =
        bc.pending_transactions ++ [t]) ∧
    ((bc.add_transaction t).2 = false → (bc.add_transaction t).1 = bc) := by
  unfold Blockchain.add_transaction
  refine ⟨?_, ?_, ?_, ?_, ?_⟩ <;> split_ifs with h1 h2 <;> simp_all

/-- Witness chain for the C5 contract. -/
def tx_poor : Transaction :=
  { sender := "X", receiver := "Y", amount := 1,
    transaction_type := "transfer", resource_data := none, timestamp := 0 }

/-- Witness: C5 applied to a fresh chain and a transaction from an unfunded
sender. -/
theorem c5_add_transaction_contract_witness :
    (((Blockchain.init 0).add_transaction tx_poor).2 = true ↔
      tx_poor.amount ≤ (Blockchain.init 0).get_balance tx_poor.sender) :=
  (c5_add_transaction_contract (Blockchain.init 0) tx_poor).2.1 (by decide)

/-- C10: the pool performs no deduplication: two successive admissions of the
same transaction both succeed under a single confirmed-balance check, the pool
then holds the fingerprint twice, and the next mined block confirms it twice. -/
theorem c10_no_dedup (bc : Blockchain) (t : Transaction) (m : String)
    (now : ℕ) (h0 : t.sender ≠ "0")
    (hb : t.amount ≤ bc.get_balance t.sender) :
    (bc.add_transaction t).2 = true ∧
    ((bc.add_transaction t).1.add_transaction t).2 = true ∧
    ((bc.add_transaction t).1.add_transaction t).1.pending_transactions =
      bc.pending_transactions ++ [t, t] ∧
    (((bc.add_transaction t).1.add_transaction t).1.mine_pending_transactions
        m now).2 =
      some (mined_block ((bc.add_transaction t).1.add_transaction t).1 m now) ∧
    (mined_block ((bc.add_transaction t).1.add_transaction t).1 m
        now).transactions.count t =
      bc.pending_transactions.count t + 2 := by
  have e1 : bc.add_transaction t =
      ({ bc with pending_transactions := bc.pending_transactions ++ [t] },
        true) := by
    unfold Blockchain.add_transaction
    rw [if_neg h0, if_pos hb]
  have hb2 : t.amount ≤
      ({ bc with pending_transactions := bc.pending_transactions ++ [t] } :
        Blockchain).get_balance t.sender := hb
  have e2 : ({ bc with
      pending_transactions := bc.pending_transactions ++ [t] } :
        Blockchain).add_transaction t =
      ({ bc with pending_transactions :=
          (bc.pending_transactions ++ [t]) ++ [t] }, true) := by
    unfold Blockchain.add_transaction
    rw [if_neg h0, if_pos hb2]
  have hrt : ∀ bc' : Blockchain, reward_tx bc' m now ≠ t := by
    intro bc' h
    apply h0
    rw [← h]
    rfl
  rw [e1, e2]
  refine ⟨rfl, rfl, by simp, ?_, ?_⟩
  · exact congrArg Prod.snd
      (mine_pending_eq ({ bc with pending_transactions :=
        (bc.pending_transactions ++ [t]) ++ [t] }) m now (by simp))
  · have hmt : (mined_block ({ bc with pending_transactions :=
        (bc.pending_transactions ++ [t]) ++ [t] } : Blockchain) m
          now).transactions =
        ((bc.pending_transactions ++ [t]) ++ [t]) ++
          [reward_tx ({ bc with pending_transactions :=
            (bc.pending_transactions ++ [t]) ++ [t] } : Blockchain) m now] :=
      rfl
    rw [hmt]
    simp [List.count_append, List.count_cons, hrt _]

/-- Witness: C10 applied to the funded chain `bc_A` and the transfer that
spends the whole balance. -/
theorem c10_no_dedup_witness :
    (mined_block ((bc_A.add_transaction tx_spend_A).1.add_transaction
        tx_spend_A).1 "M" 4).transactions.count tx_spend_A =
      bc_A.pending_transactions.count tx_spend_A + 2 :=
  (c10_no_dedup bc_A tx_spend_A "M" 4 (by decide)
    (by rw [show tx_spend_A.sender = "A" from rfl, bal_bc_A]; norm_num [tx_spend_A])).2.2.2.2

/-- C2: on a non-empty pool, the appended reward transaction's amount is the
current base reward plus the 0.1% fee over the pool's `resource_download` and
`transfer` transactions, and in balance replay each non-system address is
debited exactly the amounts of its own pool transactions — the fee is credited
to the miner only, never debited from the sender. -/
theorem c2_mining_reward_fee (bc : Blockchain) (m : String) (now : ℕ)
    (hne : bc.pending_transactions ≠ []) :
    (bc.mine_pending_transactions m now).2 = some (mined_block bc m now) ∧
    (mined_block bc m now).transactions =
      bc.pending_transactions ++ [reward_tx bc m now] ∧
    reward_tx bc m now =
      { sender := "0", receiver := m,
        amount := bc.calculate_current_reward +
          (bc.pending_transactions.map tx_fee).sum,
        transaction_type := "mining_reward", resource_data := none,
        timestamp := now } ∧
    (∀ a : String, a ≠ "0" →
      (bc.mine_pending_transactions m now).1.get_balance a =
        bc.get_balance a + pool_receipts bc.pending_transactions a +
          (if m = a then (reward_tx bc m now).amount else 0) -
          pending_debit bc.pending_transactions a) := by
  rw [mine_pending_eq bc m now hne]
  refine ⟨rfl, rfl, rfl, ?_⟩
  intro a ha
  show get_balance_chain (bc.chain ++ [mined_block bc m now]) a = _
  rw [get_balance_chain_append]
  have hmt : (mined_block bc m now).transactions =
      bc.pending_transactions ++ [reward_tx bc m now] := rfl
  rw [hmt, List.map_append, List.sum_append, sum_tx_delta _ _ ha]
  have hd : tx_delta a (reward_tx bc m now) =
      if m = a then (reward_tx bc m now).amount else 0 := by
    simp [tx_delta, reward_tx]
  have hone : (([reward_tx bc m now]).map (tx_delta a)).sum =
      tx_delta a (reward_tx bc m now) := by simp
  rw [hone, hd]
  simp only [Blockchain.get_balance]
  ring

/-- Witness: C2 applied to the chain with one pending credit. -/
theorem c2_mining_reward_fee_witness :
    (bc_A1.mine_pending_transactions "M" 2).1.get_balance "A" =
      bc_A1.get_balance "A" + pool_receipts bc_A1.pending_transactions "A" +
        (if "M" = "A" then (reward_tx bc_A1 "M" 2).amount else 0) -
        pending_debit bc_A1.pending_transactions "A" :=
  (c2_mining_reward_fee bc_A1 "M" 2 (by decide)).2.2.2 "A" (by decide)

/-- C8: the block mined from a non-empty pool carries the pool's transactions
followed by one appended `mining_reward` transaction from `"0"` to the miner;
that transaction is last, and the block's total count of `mining_reward`
transactions is one more than the pool's own count (so it is exactly one
precisely when the pool holds none of that kind). -/
theorem c8_reward_structure (bc : Blockchain) (m : String) (now : ℕ)
    (hne : bc.pending_transactions ≠ []) :
    (bc.mine_pending_transactions m now).2 = some (mined_block bc m now) ∧
    (mined_block bc m now).transactions =
      bc.pending_transactions ++ [reward_tx bc m now] ∧
    (mined_block bc m now).transactions.getLast? =
      some (reward_tx bc m now) ∧
    (reward_tx bc m now).transaction_type = "mining_reward" ∧
    (reward_tx bc m now).sender = "0" ∧
    (reward_tx bc m now).receiver = m ∧
    (mined_block bc m now).transactions.countP
        (fun t => t.transaction_type == "mining_reward") =
      bc.pending_transactions.countP
        (fun t => t.transaction_type == "mining_reward") + 1 := by
  have hmt : (mined_block bc m now).transactions =
      bc.pending_transactions ++ [reward_tx bc m now] := rfl
  refine ⟨congrArg Prod.snd (mine_pending_eq bc m now hne), hmt, ?_, rfl, rfl,
    rfl, ?_⟩
  · rw [hmt]
    simp
  · rw [hmt]
    simp [List.countP_append, reward_tx]

/-- Witness: C8 applied to the chain with one pending credit. -/
theorem c8_reward_structure_witness :
    (mined_block bc_A1 "M" 2).transactions.countP
        (fun t => t.transaction_type == "mining_reward") =
      bc_A1.pending_transactions.countP
        (fun t => t.transaction_type == "mining_reward") + 1 :=
  (c8_reward_structure bc_A1 "M" 2 (by decide)).2.2.2.2.2.2

/-- Pool transaction of kind `mining_reward` injected through the
unconditional system-sender path of `add_transaction`. -/
def tx_fake_reward : Transaction :=
  { sender := "0", receiver := "E", amount := 5,
    transaction_type := "mining_reward", resource_data := none,
    timestamp := 1 }

/-- Chain whose pool holds a `mining_reward`-kind transaction. -/
def bc_R : Blockchain := ((Blockchain.init 0).add_transaction tx_fake_reward).1

/-- C8 counterexample: after an `add_transaction` call that enqueues a
`mining_reward`-kind transaction (admitted unconditionally because its sender
is `"0"`), the next mined block contains two `mining_reward` transactions,
not exactly one. -/
theorem c8_counterexample :
    ((bc_R.mine_pending_transactions "M" 2).2.map
        (fun b => b.transactions.countP
          (fun t => t.transaction_type == "mining_reward"))) = some 2 := by
  simp [bc_R, tx_fake_reward, Blockchain.init, Blockchain.add_transaction,
    Blockchain.mine_pending_transactions, Blockchain.calculate_current_reward,
    Blockchain.get_latest_block, tx_fee, create_genesis_block, List.getLastD,
    List.countP_append, List.countP_cons]

/-- C1 (amended): a successful `add_transaction` never changes confirmed
balances, and `mine_pending_transactions` keeps every non-system balance
non-negative provided every pending amount is non-negative, the base reward is
non-negative, and each identity's aggregate pending debit is covered by its
confirmed balance.  (Admission checks each transaction only individually, so
the aggregate condition is not automatic; without it mining can overdraw —
see the counterexample.) -/
theorem c1_balance_nonneg_cond (bc : Blockchain) (m : String) (now : ℕ)
    (hamt : ∀ t ∈ bc.pending_transactions, 0 ≤ t.amount)
    (hrew : 0 ≤ bc.mining_reward)
    (hcov : ∀ x : String, x ≠ "0" →
      pending_debit bc.pending_transactions x ≤ bc.get_balance x) :
    (∀ t a, (bc.add_transaction t).1.get_balance a = bc.get_balance a) ∧
    (∀ a, a ≠ "0" →
      0 ≤ (bc.mine_pending_transactions m now).1.get_balance a) := by
  constructor
  · intro t a
    simp only [Blockchain.get_balance, add_transaction_chain]
  · intro a ha
    by_cases hp : bc.pending_transactions = []
    · have he : bc.mine_pending_transactions m now = (bc, none) := by
        unfold Blockchain.mine_pending_transactions
        rw [if_pos hp]
      rw [he]
      have h1 := hcov a ha
      rw [hp] at h1
      simp only [pending_debit, List.filter_nil, List.map_nil,
        List.sum_nil] at h1
      exact h1
    · rw [mine_pending_eq bc m now hp]
      show 0 ≤ get_balance_chain (bc.chain ++ [mined_block bc m now]) a
      rw [get_balance_chain_append]
      have hmt : (mined_block bc m now).transactions =
          bc.pending_transactions ++ [reward_tx bc m now] := rfl
      rw [hmt, List.map_append, List.sum_append]
      have l1 := sum_tx_delta_lower bc.pending_transactions a hamt
      have l2 : 0 ≤ (([reward_tx bc m now]).map (tx_delta a)).sum := by
        have n1 := current_reward_nonneg bc hrew
        have n2 := fees_nonneg bc.pending_transactions hamt
        simp [tx_delta, reward_tx]
        split_ifs <;> linarith
      have l3 := hcov a ha
      have : get_balance_chain bc.chain a = bc.get_balance a := rfl
      rw [this]
      linarith

/-- Witness: C1 (amended) applied to a fresh chain. -/
theorem c1_balance_nonneg_cond_witness :
    0 ≤ ((Blockchain.init 0).mine_pending_transactions "M" 1).1.get_balance
      "A" := by
  have hcov : ∀ x : String, x ≠ "0" →
      pending_debit (Blockchain.init 0).pending_transactions x ≤
        (Blockchain.init 0).get_balance x := by
    intro x hx
    simp [Blockchain.init, Blockchain.get_balance, get_balance_chain,
      create_genesis_block, tx_delta, pending_debit]
  exact (c1_balance_nonneg_cond (Blockchain.init 0) "M" 1
    (by simp [Blockchain.init]) (by norm_num [Blockchain.init]) hcov).2 "A"
    (by decide)

/-- C1 counterexample: the admission check is per transaction against the
confirmed balance only, so two admissions of a full-balance transfer both
succeed and the next `mine_pending_transactions` drives the sender's confirmed
balance to −100. -/
theorem c1_counterexample :
    (bc_A.add_transaction tx_spend_A).2 = true ∧
    ((bc_A.add_transaction tx_spend_A).1.add_transaction tx_spend_A).2 =
      true ∧
    bc_A3.get_balance "A" = -100 := by
  refine ⟨?_, ?_, bal_bc_A3⟩
  · simp [bc_A, bc_A1, tx_credit_A, tx_spend_A, Blockchain.init,
      Blockchain.add_transaction, Blockchain.mine_pending_transactions,
      Blockchain.get_balance, get_balance_chain,
      Blockchain.calculate_current_reward, Blockchain.get_latest_block,
      tx_fee, tx_delta, create_genesis_block, List.getLastD]
  · simp [bc_A, bc_A1, tx_credit_A, tx_spend_A, Blockchain.init,
      Blockchain.add_transaction, Blockchain.mine_pending_transactions,
      Blockchain.get_balance, get_balance_chain,
      Blockchain.calculate_current_reward, Blockchain.get_latest_block,
      tx_fee, tx_delta, create_genesis_block, List.getLastD]

/-- In-place mutation of a single block field (S6's "mutate any field"). -/
inductive BlockMut where
  | set_index (v : ℕ)
  | set_timestamp (v : ℕ)
  | set_transactions (v : List Transaction)
  | set_previous_hash (v : HashVal)
  | set_nonce (v : ℕ)
  | set_difficulty (v : ℕ)
  | set_hash (v : HashVal)
deriving DecidableEq, Repr

/-- Apply a field mutation to a block. -/
def applyMut : BlockMut → Block → Block
  | .set_index v, b => { b with index := v }
  | .set_timestamp v, b => { b with timestamp := v }
  | .set_transactions v, b => { b with transactions := v }
  | .set_previous_hash v, b => { b with previous_hash := v }
  | .set_nonce v, b => { b with nonce := v }
  | .set_difficulty v, b => { b with difficulty := v }
  | .set_hash v, b => { b with hash := v }

/-- Mutations that touch either a hash-covered field or the stored hash
itself; only the `difficulty` field is outside both. -/
def mutDetectable : BlockMut → Bool
  | .set_difficulty _ => false
  | _ => true

theorem chainValid_link (ch : List Block) (hv : chainValid ch = true) (j : ℕ)
    (hj : j + 1 < ch.length) : validLink ch[j] ch[j + 1] = true := by
  have hz := (List.all_eq_true).mp hv
  have hjz : j < (ch.zip ch.tail).length := by
    simp only [List.length_zip, List.length_tail]
    omega
  have hmem : ((ch.zip ch.tail)[j]) ∈ ch.zip ch.tail :=
    List.getElem_mem hjz
  have he : (ch.zip ch.tail)[j] = (ch[j], ch[j + 1]) := by
    rw [List.getElem_zip]
    rw [List.getElem_tail]
  have := hz _ hmem
  rw [he] at this
  exact this

theorem chainValid_eq_false_of_link (ch : List Block) (j : ℕ)
    (hj : j + 1 < ch.length) (hf : validLink ch[j] ch[j + 1] = false) :
    chainValid ch = false := by
  rw [chainValid, List.all_eq_false]
  have hjz : j < (ch.zip ch.tail).length := by
    simp only [List.length_zip, List.length_tail]
    omega
  refine ⟨(ch.zip ch.tail)[j], List.getElem_mem hjz, ?_⟩
  have he : (ch.zip ch.tail)[j] = (ch[j], ch[j + 1]) := by
    rw [List.getElem_zip]
    rw [List.getElem_tail]
  rw [he]
  simp [hf]

/-- A detectable mutation that actually changes the block breaks the
recompute-match check. -/
theorem applyMut_breaks (b : Block) (m : BlockMut)
    (hm : mutDetectable m = true) (hb : b.hash = b.calculate_hash)
    (hch : applyMut m b ≠ b) :
    ((applyMut m b).hash == (applyMut m b).calculate_hash) = false := by
  rw [beq_eq_false_iff_ne]
  cases m with
  | set_index v =>
    intro heq
    simp only [applyMut, Block.calculate_hash] at heq hch
    rw [show ({ b with index := v } : Block).hash = b.hash from rfl, hb,
      Block.calculate_hash] at heq
    injection heq with e1 e2 e3 e4 e5
    exact hch (by rw [← e1])
  | set_timestamp v =>
    intro heq
    simp only [applyMut, Block.calculate_hash] at heq hch
    rw [show ({ b with timestamp := v } : Block).hash = b.hash from rfl, hb,
      Block.calculate_hash] at heq
    injection heq with e1 e2 e3 e4 e5
    exact hch (by rw [← e2])
  | set_transactions v =>
    intro heq
    simp only [applyMut, Block.calculate_hash] at heq hch
    rw [show ({ b with transactions := v } : Block).hash = b.hash from rfl,
      hb, Block.calculate_hash] at heq
    injection heq with e1 e2 e3 e4 e5
    exact hch (by rw [← e5])
  | set_previous_hash v =>
    intro heq
    simp only [applyMut, Block.calculate_hash] at heq hch
    rw [show ({ b with previous_hash := v } : Block).hash = b.hash from rfl,
      hb, Block.calculate_hash] at heq
    injection heq with e1 e2 e3 e4 e5
    exact hch (by rw [← e3])
  | set_nonce v =>
    intro heq
    simp only [applyMut, Block.calculate_hash] at heq hch
    rw [show ({ b with nonce := v } : Block).hash = b.hash from rfl, hb,
      Block.calculate_hash] at heq
    injection heq with e1 e2 e3 e4 e5
    exact hch (by rw [← e4])
  | set_difficulty v => simp [mutDetectable] at hm
  | set_hash v =>
    intro heq
    simp only [applyMut, Block.calculate_hash] at heq hch
    have hv : v = b.hash := by
      rw [hb, Block.calculate_hash]
      exact heq
    exact hch (by rw [hv])

/-- C3 (amended): in a valid chain, mutating any field of a block at index
i ≥ 1 other than `difficulty` — that is, any hash-covered field or the stored
hash itself — without re-mining makes `is_chain_valid` return false.  (The
genesis block's own content is never re-checked, so its mutations go
undetected — see the counterexample — and the `difficulty` field is not part
of the hashed data.) -/
theorem c3_tamper_detected (ch : List Block) (i : ℕ) (m : BlockMut)
    (hv : chainValid ch = true) (h1 : 1 ≤ i) (h2 : i < ch.length)
    (hm : mutDetectable m = true)
    (hch : applyMut m ch[i] ≠ ch[i]) :
    chainValid (ch.set i (applyMut m ch[i])) = false := by
  obtain ⟨j, rfl⟩ : ∃ j, i = j + 1 := ⟨i - 1, by omega⟩
  have hlink := chainValid_link ch hv j h2
  have hb : ch[j + 1].hash = ch[j + 1].calculate_hash := by
    simp only [validLink, Bool.and_eq_true, beq_iff_eq] at hlink
    exact hlink.1.1
  have hbreak := applyMut_breaks (ch[j + 1]) m hm hb hch
  have hlen : j + 1 < (ch.set (j + 1) (applyMut m ch[j + 1])).length := by
    simp only [List.length_set]
    omega
  apply chainValid_eq_false_of_link _ j hlen
  have hlen2 : j < (ch.set (j + 1) (applyMut m ch[j + 1])).length := by
    simp only [List.length_set]
    omega
  have e1 : (ch.set (j + 1) (applyMut m ch[j + 1]))[j] = ch[j] :=
    List.getElem_set_ne (by omega) _
  have e2 : (ch.set (j + 1) (applyMut m ch[j + 1]))[j + 1] =
      applyMut m ch[j + 1] :=
    List.getElem_set_self hlen
  rw [e1, e2]
  simp [validLink, hbreak]

theorem bc_A_len : bc_A.chain.length = 2 := by
  simp [bc_A, bc_A1, tx_credit_A, Blockchain.init, Blockchain.add_transaction,
    Blockchain.mine_pending_transactions, Blockchain.get_latest_block,
    create_genesis_block, List.getLastD]

@[simp] theorem mkBlock_calculate_hash (i t : ℕ) (txs : List Transaction)
    (p : HashVal) (d : ℕ) :
    (mkBlock i t txs p d).calculate_hash = .node i t p 0 txs := rfl

theorem bc_A_chain_valid : chainValid bc_A.chain = true := by
  simp [bc_A, bc_A1, tx_credit_A, Blockchain.init, Blockchain.add_transaction,
    Blockchain.mine_pending_transactions, Blockchain.get_latest_block,
    Blockchain.calculate_current_reward, tx_fee, create_genesis_block,
    List.getLastD, chainValid, validLink, meetsTarget, hashNonce]

/-- Witness: C3 (amended) applied to the two-block chain `bc_A`, mutating the
timestamp of the block at index 1. -/
theorem c3_tamper_detected_witness :
    chainValid (bc_A.chain.set 1 (applyMut (BlockMut.set_timestamp 77)
      (bc_A.chain.get ⟨1, by rw [bc_A_len]; omega⟩))) = false :=
  c3_tamper_detected bc_A.chain 1 (BlockMut.set_timestamp 77)
    bc_A_chain_valid (by omega) (by rw [bc_A_len]; omega) rfl
    (by decide)

/-- Chain state of `bc_A` with the genesis block's timestamp mutated in
place. -/
def tampered_bc : Blockchain :=
  { bc_A with
    chain := bc_A.chain.modifyHead (applyMut (BlockMut.set_timestamp 99)) }

/-- C3 counterexample: mutating a field of the genesis block — a non-tip
block of a valid chain — is not detected: `is_chain_valid` still returns
true, because the validation loop never re-checks the genesis block's own
content. -/
theorem c3_counterexample :
    bc_A.is_chain_valid = true ∧
    2 ≤ bc_A.chain.length ∧
    tampered_bc.chain ≠ bc_A.chain ∧
    tampered_bc.is_chain_valid = true := by
  refine ⟨bc_A_chain_valid, by rw [bc_A_len], ?_, ?_⟩
  · intro hEq
    have h0 : tampered_bc.chain.map Block.timestamp =
        bc_A.chain.map Block.timestamp := by rw [hEq]
    simp [tampered_bc, bc_A, bc_A1, tx_credit_A, Blockchain.init,
      Blockchain.add_transaction, Blockchain.mine_pending_transactions,
      Blockchain.get_latest_block, Blockchain.calculate_current_reward,
      tx_fee, create_genesis_block, List.getLastD, applyMut,
      List.modifyHead] at h0
  · simp [tampered_bc, bc_A, bc_A1, tx_credit_A, Blockchain.init,
      Blockchain.add_transaction, Blockchain.mine_pending_transactions,
      Blockchain.get_latest_block, Blockchain.calculate_current_reward,
      tx_fee, create_genesis_block, List.getLastD, applyMut,
      Blockchain.is_chain_valid, chainValid, validLink, meetsTarget,
      hashNonce]

theorem ownerReject_eq_false_iff (fo : String) (req : Option String) :
    ownerReject fo req = false ↔
      (req = none ∨ req = some "" ∨ req = some fo) := by
  cases req with
  | none => simp [ownerReject]
  | some s =>
    by_cases hs : s = "" <;> by_cases hf : fo = s <;>
      simp [ownerReject, hs, hf] <;> simp [eq_comm, hf]

/-- C4 (amended): `remove_file` and `update_file` succeed iff the record
exists and the requester is falsy (`None` or `""`, skipping the ownership
check as in the Python guard) or equals the record's owner; failing calls
leave the registry unchanged — in particular a non-owner with a non-empty
identity never changes state — and an update never changes the `id` or
`owner_address` fields. -/
theorem c4_registry_auth (rm : ResourceManager) (fid : ℕ)
    (req : Option String) (patch : List FieldPatch) :
    ((rm.remove_file fid req).2 = true ↔
      ∃ f, rm.files.lookup fid = some f ∧
        (req = none ∨ req = some "" ∨ req = some f.owner_address)) ∧
    ((rm.remove_file fid req).2 = false → (rm.remove_file fid req).1 = rm) ∧
    (((rm.update_file fid patch req).2).isSome = true ↔
      ∃ f, rm.files.lookup fid = some f ∧
        (req = none ∨ req = some "" ∨ req = some f.owner_address)) ∧
    (((rm.update_file fid patch req).2) = none →
      (rm.update_file fid patch req).1 = rm) ∧
    (∀ f, rm.files.lookup fid = some f →
      (rm.update_file fid patch req).2 = none ∨
        (rm.update_file fid patch req).2 = some (applyPatch f patch)) ∧
    (∀ f : SharedFile, (applyPatch f patch).id = f.id ∧
      (applyPatch f patch).owner_address = f.owner_address) := by
  refine ⟨?_, ?_, ?_, ?_, ?_, ?_⟩
  · cases h : rm.files.lookup fid with
    | none => simp [ResourceManager.remove_file, h]
    | some f =>
      by_cases hr : ownerReject f.owner_address req
      · have : ¬(req = none ∨ req = some "" ∨ req = some f.owner_address) := by
          rw [← ownerReject_eq_false_iff]
          simp [hr]
        simp [ResourceManager.remove_file, h, hr, this]
      · have := (ownerReject_eq_false_iff f.owner_address req).mp
          (by simpa using hr)
        simp [ResourceManager.remove_file, h, hr, this]
  · cases h : rm.files.lookup fid with
    | none => simp [ResourceManager.remove_file, h]
    | some f =>
      by_cases hr : ownerReject f.owner_address req <;>
        simp [ResourceManager.remove_file, h, hr]
  · cases h : rm.files.lookup fid with
    | none => simp [ResourceManager.update_file, h]
    | some f =>
      by_cases hr : ownerReject f.owner_address req
      · have : ¬(req = none ∨ req = some "" ∨ req = some f.owner_address) := by
          rw [← ownerReject_eq_false_iff]
          simp [hr]
        simp [ResourceManager.update_file, h, hr, this]
      · have := (ownerReject_eq_false_iff f.owner_address req).mp
          (by simpa using hr)
        simp [ResourceManager.update_file, h, hr, this]
  · cases h : rm.files.lookup fid with
    | none => simp [ResourceManager.update_file, h]
    | some f =>
      by_cases hr : ownerReject f.owner_address req <;>
        simp [ResourceManager.update_file, h, hr]
  · intro f hf
    by_cases hr : ownerReject f.owner_address req <;>
      simp [ResourceManager.update_file, hf, hr]
  · intro f
    induction patch generalizing f with
    | nil => exact ⟨rfl, rfl⟩
    | cons p ps ih =>
      cases p <;>
        simp only [applyPatch, List.foldl_cons, patchKeyBlocked, applyField,
          if_true, if_false] <;>
        exact ih _

/-- Input fields for a resource owned by identity `"aabb"`. -/
def fd_owned : FileData :=
  { name := "doc", size_gb := 1, uploader := "alice", seeds := 0, peers := 0,
    description := "", owner_address := "aabb", file_hash := "",
    category := "general", upload_time := some 5, is_active := true,
    storage_path := "" }

/-- Registry holding, besides the sample files, a resource (id 4) owned by
`"aabb"`. -/
def rm_owned : ResourceManager := ((ResourceManager.init 0).add_file fd_owned 5).1

/-- C4 counterexample: a requester identity that is the empty string — falsy
in the Python ownership guard — removes a record owned by `"aabb"`: the call
returns true and the record is gone, although requester ≠ owner. -/
theorem c4_counterexample :
    (rm_owned.files.lookup 4).map SharedFile.owner_address = some "aabb" ∧
    "" ≠ "aabb" ∧
    (rm_owned.remove_file 4 (some "")).2 = true ∧
    (rm_owned.remove_file 4 (some "")).1.files.lookup 4 = none := by
  refine ⟨?_, by decide, ?_, ?_⟩ <;>
    simp [rm_owned, fd_owned, ResourceManager.init, ResourceManager.add_file,
      ResourceManager.remove_file, sample_files, mkSharedFile, ownerReject,
      List.lookup]

/-- Witness: C4 (amended) applied to `rm_owned` with a non-owner, non-empty
requester. -/
theorem c4_registry_auth_witness :
    ((rm_owned.remove_file 4 (some "x")).2 = true ↔
      ∃ f, rm_owned.files.lookup 4 = some f ∧
        ((some "x" : Option String) = none ∨ (some "x" : Option String) = some "" ∨
          (some "x" : Option String) = some f.owner_address)) :=
  (c4_registry_auth rm_owned 4 (some "x") []).1

/-- C6 (amended): `register_user` fails (raises, modelled as `none`) exactly
when the handle already exists; otherwise it stores the new user and enqueues
exactly one `initial_credit` transaction (sender `"0"`, receiver the minted
identity, amount 10 000) without touching the chain — but the new user's
registry is not empty: every fresh `ResourceManager` is pre-seeded with the
three sample files. -/
theorem c6_register_user (sys : SysState) (username address : String)
    (now : ℕ) :
    (sys.register_user username address now = none ↔
      (sys.get_user username).isSome = true) ∧
    (∀ sys', sys.register_user username address now = some sys' →
      sys'.users = sys.users ++
        [(username,
          { username := username, address := address,
            resource_manager := ResourceManager.init now })] ∧
      sys'.blockchain.chain = sys.blockchain.chain ∧
      sys'.blockchain.pending_transactions =
        sys.blockchain.pending_transactions ++
          [{ sender := "0", receiver := address, amount := 10000,
             transaction_type := "initial_credit", resource_data := none,
             timestamp := now }] ∧
      (ResourceManager.init now).files.length = 3) := by
  by_cases hl : (sys.users.lookup username).isSome = true
  · constructor
    · simp [SysState.register_user, SysState.get_user, hl]
    · intro sys' hs
      simp [SysState.register_user, hl] at hs
  · constructor
    · simp [SysState.register_user, SysState.get_user, hl]
    · intro sys' hs
      simp only [SysState.register_user, hl, Bool.false_eq_true,
        if_false, Option.some.injEq] at hs
      subst hs
      refine ⟨rfl, ?_, ?_, rfl⟩
      · simp [mkUser, Blockchain.add_transaction]
      · simp [mkUser, Blockchain.add_transaction, initial_credit]

/-- Facade state with a single registered user `"Alice"` (identity `"aa"`). -/
def sys_A : SysState :=
  ((SysState.init 0).register_user "Alice" "aa" 1).getD (SysState.init 0)

/-- Witness: C6 (amended) applied to the registration that builds `sys_A`. -/
theorem c6_register_user_witness :
    sys_A.users = (SysState.init 0).users ++
      [("Alice",
        { username := "Alice", address := "aa",
          resource_manager := ResourceManager.init 1 })] :=
  (((c6_register_user (SysState.init 0) "Alice" "aa" 1).2 sys_A (by
    simp [sys_A, SysState.init, SysState.register_user, List.lookup]))).1

/-- C6 counterexample: the registry created for a fresh user is not empty —
it already holds the three pre-seeded sample files. -/
theorem c6_counterexample :
    (SysState.init 0).register_user "Alice" "aa" 1 = some sys_A ∧
    ((sys_A.get_user "Alice").map
      (fun u => u.resource_manager.files.length)) = some 3 ∧
    ((sys_A.get_user "Alice").map
      (fun u => u.resource_manager.files.length)) ≠ some 0 := by
  refine ⟨?_, ?_, ?_⟩ <;>
    simp [sys_A, SysState.init, SysState.register_user, SysState.get_user,
      mkUser, ResourceManager.init, sample_files, Blockchain.init,
      Blockchain.add_transaction, create_genesis_block, List.lookup]

/-- C9 (amended): for an unregistered handle, `declare_user_resources` and
`download_resource` return false, `mine_block` returns none, and
`get_user_balance` returns the number `0.0` — an ordinary balance value, not
a false/none sentinel. -/
theorem c9_unknown_handle (sys : SysState) (h : String) (fd : FileData)
    (fid now : ℕ) (hu : sys.get_user h = none) :
    sys.declare_user_resources h fd now = (sys, false) ∧
    (∀ oh, sys.download_resource h oh fid now = (sys, false)) ∧
    (∀ dh, sys.download_resource dh h fid now = (sys, false)) ∧
    sys.mine_block h now = (sys, none) ∧
    sys.get_user_balance h = 0 := by
  refine ⟨?_, ?_, ?_, ?_, ?_⟩
  · simp [SysState.declare_user_resources, hu]
  · intro oh
    simp [SysState.download_resource, hu]
  · intro dh
    cases hd : sys.get_user dh <;> simp [SysState.download_resource, hu, hd]
  · simp [SysState.mine_block, hu]
  · simp [SysState.get_user_balance, hu]

/-- Witness: C9 (amended) applied to `sys_A` and the handle `"ghost"`. -/
theorem c9_unknown_handle_witness :
    sys_A.mine_block "ghost" 2 = (sys_A, none) ∧
    sys_A.get_user_balance "ghost" = 0 :=
  have h := c9_unknown_handle sys_A "ghost" fd_owned 1 2 (by
    simp [sys_A, SysState.init, SysState.register_user, SysState.get_user,
      List.lookup])
  ⟨h.2.2.2.1, h.2.2.2.2⟩

/-- C9 counterexample: `get_user_balance` reports an unknown handle with the
number `0.0`, which coincides with the perfectly normal balance of a freshly
registered user whose endowment is still pending — not with a false/none
value. -/
theorem c9_counterexample :
    sys_A.get_user "ghost" = none ∧
    (sys_A.get_user "Alice").isSome = true ∧
    sys_A.get_user_balance "ghost" = 0 ∧
    sys_A.get_user_balance "Alice" = 0 := by
  refine ⟨?_, ?_, ?_, ?_⟩ <;>
    simp [sys_A, SysState.init, SysState.register_user, SysState.get_user,
      SysState.get_user_balance, mkUser, Blockchain.init,
      Blockchain.add_transaction, Blockchain.get_balance, get_balance_chain,
      create_genesis_block, tx_delta, List.lookup]

/-- Case analysis of the owner-side `download_resource`: with an existing
resource, a non-negative size and a non-system downloader identity, the call
fails (leaving user and chain untouched) unless the resource is active, its
recorded owner differs from the downloader, and the downloader's confirmed
balance covers cost plus fee; in that case it enqueues the download
transaction and bumps the seed count. -/
theorem user_download_cases (o : UserState) (bc : Blockchain) (fid now : ℕ)
    (d : UserState) (f : SharedFile)
    (hf : o.resource_manager.get_file fid = some f)
    (hsz : 0 ≤ f.size_gb) (h0 : d.address ≠ "0") :
    (¬(f.is_active = true ∧ f.owner_address ≠ d.address ∧
        f.size_gb * 1000 + f.size_gb * 1000 * 0.001 ≤
          bc.get_balance d.address) →
      User.download_resource o bc fid d now = ((o, bc), false)) ∧
    ((f.is_active = true ∧ f.owner_address ≠ d.address ∧
        f.size_gb * 1000 + f.size_gb * 1000 * 0.001 ≤
          bc.get_balance d.address) →
      User.download_resource o bc fid d now =
        (({ o with
              resource_manager :=
                o.resource_manager.setFile fid
                  { f with
                      seeds := max 0 (f.seeds + 1),
                      peers := max 0 (f.peers + 0) } },
          { bc with
              pending_transactions :=
                bc.pending_transactions ++
                  [{ sender := d.address, receiver := f.owner_address,
                     amount := f.size_gb * 1000,
                     transaction_type := "resource_download",
                     resource_data := some f, timestamp := now }] }),
          true)) := by
  have hfee : 0 ≤ f.size_gb * 1000 * 0.001 := by positivity
  by_cases ha : f.is_active = true
  · by_cases hw : f.owner_address = d.address
    · constructor
      · intro hc
        simp [User.download_resource, hf, ha, hw]
      · intro hc
        exact absurd hw hc.2.1
    · by_cases hb : f.size_gb * 1000 + f.size_gb * 1000 * 0.001 ≤
          bc.get_balance d.address
      · constructor
        · intro hc
          exact absurd ⟨ha, hw, hb⟩ hc
        · intro hc
          have hcost : f.size_gb * 1000 ≤ bc.get_balance d.address := by
            linarith
          have hnl : ¬(bc.get_balance d.address <
              f.size_gb * 1000 + f.size_gb * 1000 * 0.001) := not_lt.mpr hb
          simp [User.download_resource, hf, ha, hw, hnl,
            Blockchain.add_transaction, h0, hcost,
            ResourceManager.update_seeds_peers,
            show o.resource_manager.files.lookup fid = some f from hf]
      · constructor
        · intro hc
          have hlt : bc.get_balance d.address <
              f.size_gb * 1000 + f.size_gb * 1000 * 0.001 := not_le.mp hb
          simp [User.download_resource, hf, ha, hw, hlt]
        · intro hc
          exact absurd hc.2.2 hb
  · constructor
    · intro hc
      simp [User.download_resource, hf, ha]
    · intro hc
      exact absurd hc.1 ha

/-- C7 (amended): with both handles registered, an existing resource of
non-negative size in the owner's registry, and a non-system downloader
identity, the facade download succeeds iff the resource is active, its
recorded `owner_address` differs from the downloader's identity (the check
compares the resource's stored owner, not the owner handle), and the
downloader's confirmed balance covers cost + 0.1% fee; on success exactly one
`resource_download` transaction from the downloader to the resource's
recorded owner for the cost is enqueued, the chain is untouched, and the
resource's seed count becomes max 0 (seeds + 1); on failure the whole system
state is unchanged. -/
theorem c7_download_contract (sys : SysState) (dh oh : String)
    (fid now : ℕ) (d o : UserState) (hd : sys.get_user dh = some d)
    (ho : sys.get_user oh = some o) (f : SharedFile)
    (hf : o.resource_manager.get_file fid = some f)
    (hsz : 0 ≤ f.size_gb) (h0 : d.address ≠ "0") :
    ((sys.download_resource dh oh fid now).2 = true ↔
      (f.is_active = true ∧ f.owner_address ≠ d.address ∧
        f.size_gb * 1000 + f.size_gb * 1000 * 0.001 ≤
          sys.blockchain.get_balance d.address)) ∧
    ((sys.download_resource dh oh fid now).2 = false →
      (sys.download_resource dh oh fid now).1 = sys) ∧
    ((sys.download_resource dh oh fid now).2 = true →
      (sys.download_resource dh oh fid now).1.blockchain.pending_transactions =
        sys.blockchain.pending_transactions ++
          [{ sender := d.address, receiver := f.owner_address,
             amount := f.size_gb * 1000,
             transaction_type := "resource_download",
             resource_data := some f, timestamp := now }] ∧
      (sys.download_resource dh oh fid now).1.blockchain.chain =
        sys.blockchain.chain ∧
      ((sys.download_resource dh oh fid now).1.get_user oh).map
          (fun u => u.resource_manager.get_file fid) =
        some (some { f with seeds := max 0 (f.seeds + 1),
                            peers := max 0 (f.peers + 0) })) := by
  have ho' : sys.users.lookup oh = some o := ho
  have hface : sys.download_resource dh oh fid now =
      (({ sys with
            blockchain := (User.download_resource o sys.blockchain fid d
              now).1.2 }).set_user oh
        (User.download_resource o sys.blockchain fid d now).1.1,
        (User.download_resource o sys.blockchain fid d now).2) := by
    simp [SysState.download_resource, hd, ho]
  have hcases := user_download_cases o sys.blockchain fid now d f hf hsz h0
  by_cases hc : (f.is_active = true ∧ f.owner_address ≠ d.address ∧
      f.size_gb * 1000 + f.size_gb * 1000 * 0.001 ≤
        sys.blockchain.get_balance d.address)
  · rw [hface, hcases.2 hc]
    refine ⟨by simp [hc], by simp, ?_⟩
    intro hh
    refine ⟨rfl, rfl, ?_⟩
    have hu : (({ sys with
        blockchain := { sys.blockchain with
          pending_transactions := sys.blockchain.pending_transactions ++
            [{ sender := d.address, receiver := f.owner_address,
               amount := f.size_gb * 1000,
               transaction_type := "resource_download",
               resource_data := some f,
               timestamp := now }] } } : SysState).set_user oh
          { o with
              resource_manager :=
                o.resource_manager.setFile fid
                  { f with
                      seeds := max 0 (f.seeds + 1),
                      peers := max 0 (f.peers + 0) } }).get_user oh =
        some { o with
                 resource_manager :=
                   o.resource_manager.setFile fid
                     { f with
                         seeds := max 0 (f.seeds + 1),
                         peers := max 0 (f.peers + 0) } } := by
      show ((setFirst sys.users oh _).lookup oh) = _
      exact lookup_setFirst_self _ _ _ (by simp [ho'])
    rw [hu]
    show some ((setFirst o.resource_manager.files fid _).lookup fid) = _
    rw [lookup_setFirst_self _ _ _
      (by simp [show o.resource_manager.files.lookup fid = some f from hf])]
  · rw [hface, hcases.1 hc]
    have hfix : (({ sys with blockchain := sys.blockchain } :
        SysState).set_user oh o) = sys := by
      show ({ sys with users := setFirst sys.users oh o } : SysState) = sys
      rw [setFirst_eq_of_lookup sys.users oh o ho']
    refine ⟨by simp [hc], ?_, by simp⟩
    intro hh
    exact hfix

/-- System where Alice has mined her endowment: confirmed balance 10 050. -/
def sys_Am : SysState := (sys_A.mine_block "Alice" 2).1

/-- Alice's user record in `sys_A` and `sys_Am`. -/
def alice_state : UserState :=
  { username := "Alice", address := "aa",
    resource_manager := ResourceManager.init 1 }

/-- The first pre-seeded sample resource of a registry created at instant 1. -/
def sample_file_1 : SharedFile :=
  { id := 1, name := "The Art of Seeding.pdf", size_gb := 0.0124,
    uploader := "seedMaster", seeds := 42, peers := 5,
    description := "Illustrated guide to earning wealth rewards efficiently.",
    owner_address := "", file_hash := "", category := "document",
    upload_time := 1, is_active := true, storage_path := "" }

/-- C7 counterexample: `download_resource("Alice", "Alice", 1)` — downloader
handle equal to owner handle — succeeds, because the code only compares the
resource's stored `owner_address` (the empty string, for a pre-seeded sample
file) with the downloader's identity.  The claim's `downloader ≠ owner`
condition is violated. -/
theorem c7_counterexample :
    ((sys_Am.get_user "Alice").map
      (fun u => (u.resource_manager.get_file 1).isSome)) = some true ∧
    (sys_Am.download_resource "Alice" "Alice" 1 3).2 = true := by
  constructor
  · simp [sys_Am, sys_A, SysState.init, SysState.register_user,
      SysState.get_user, SysState.set_user, SysState.mine_block,
      SysState.download_resource, User.download_resource, mkUser,
      ResourceManager.init, ResourceManager.get_file,
      ResourceManager.update_seeds_peers, ResourceManager.setFile,
      sample_files, setFirst, Blockchain.init, Blockchain.add_transaction,
      Blockchain.mine_pending_transactions, Blockchain.get_balance,
      get_balance_chain, Blockchain.calculate_current_reward,
      Blockchain.get_latest_block, tx_fee, tx_delta, create_genesis_block,
      List.getLastD, List.lookup, initial_credit]
  · simp [sys_Am, sys_A, SysState.init, SysState.register_user,
      SysState.get_user, SysState.set_user, SysState.mine_block,
      SysState.download_resource, User.download_resource, mkUser,
      ResourceManager.init, ResourceManager.get_file,
      ResourceManager.update_seeds_peers, ResourceManager.setFile,
      sample_files, setFirst, Blockchain.init, Blockchain.add_transaction,
      Blockchain.mine_pending_transactions, Blockchain.get_balance,
      get_balance_chain, Blockchain.calculate_current_reward,
      Blockchain.get_latest_block, tx_fee, tx_delta, create_genesis_block,
      List.getLastD, List.lookup, initial_credit]
    norm_num

/-- Witness: C7 (amended) applied to the state `sys_Am` with the sample
resource 1. -/
theorem c7_download_contract_witness :
    ((sys_Am.download_resource "Alice" "Alice" 1 3).2 = true ↔
      (sample_file_1.is_active = true ∧
        sample_file_1.owner_address ≠ alice_state.address ∧
        sample_file_1.size_gb * 1000 + sample_file_1.size_gb * 1000 * 0.001 ≤
          sys_Am.blockchain.get_balance alice_state.address)) :=
  (c7_download_contract sys_Am "Alice" "Alice" 1 3 alice_state alice_state
    rfl rfl sample_file_1 rfl (by norm_num [sample_file_1])
    (by decide)).1
